import Mathlib

/-!
Verification of the concurrent grammar-example resolver
(`src/main.rs`, `src/eventually.rs`).

The development has three layers:

* `Rule` and the big-step resolution relation `Resolves`, a shallow
  embedding of `resolve_rule` (src/main.rs:32-105).  Concurrency enters
  only through the `Choice` arm: the Rust code spawns one task per
  alternative and then runs
  `while let Some(Ok(Some(s))) = join_set.join_next().await { return Some(s) }`,
  so the overall result is decided by whichever alternative completes
  first — `Some s` is returned, and a first completion of `None` makes
  the `while let` pattern fail, exiting the loop and returning `None`.
  The relation therefore lets any alternative (any possible first
  completer) hand its result directly to the `Choice` node.  A branch
  that suspends forever never completes, hence never has a derivation.

* A small transition system for the `Eventually` cell
  (src/eventually.rs), faithful to the lock discipline of the code: in
  `read`, the `RwLock` read guard `inner` stays live across
  `inner.notify.notified().await`, and `write` needs the write lock.

* A model of the symbol table operations: the `entry(..).or_insert(..)`
  registration in the `NamedSymbol` arm, and the driver commit
  (src/main.rs:148-157), together with the `main` join loop
  (src/main.rs:161-163).
-/

/-- The `Rule` tree from `tree_sitter_cli::rules::Rule`, restricted to the
variants `resolve_rule` matches on.  `Metadata` carries opaque params in the
source; only their presence matters to the evaluator, so they are kept as an
abstract placeholder value. -/
inductive Rule where
  | Blank : Rule
  | String : String → Rule
  | Pattern : String → Rule
  | Metadata : Rule → Rule
  | Repeat : Rule → Rule
  | Seq : List Rule → Rule
  | Choice : List Rule → Rule
  | NamedSymbol : String → Rule
  | Symbol : Nat → Rule

/-- The pattern table `pattern_matches : HashMap<String, String>`, as an
association list; `lookupPattern` is `pattern_matches.get(&s)`. -/
def PatternTable := List (String × String)

/-- `pattern_matches.get(&s)` — first binding for the key, if any. -/
def lookupPattern (pm : PatternTable) (p : String) : Option String :=
  match pm with
  | [] => none
  | (k, v) :: rest => if k = p then some v else lookupPattern rest p

/-- Snapshot of the symbol table as seen by `Rule::NamedSymbol`:
`env name = some v` means the `Eventually` cell for `name` currently holds
the committed value `v : Option String` (so `read()` returns `v` at once);
`env name = none` means no committed value, in which case `read()` suspends
and the branch produces no result. -/
def SymbolEnv := String → Option (Option String)

/-- Big-step semantics of `resolve_rule pattern_matches symbol_resolutions
rule` (src/main.rs:32-105).  `Resolves pm env r v` holds when some
execution of `resolve_rule` on `r` completes with value `v`.

The `Seq` arm's loop is modelled by structural recursion on the element
list (`seqNil`/`seqConsSome`/`seqConsNoneHead`/`seqConsNoneTail` mirror the
`for` loop that pushes each `Some` resolution and returns `None` at the
first `None`, then joins with the empty separator).

The `Choice` arm: each `join_next()` iteration either returns `Some s`
(pattern `Some(Ok(Some(s)))` matched) or exits the loop with `None`
(first completion was `Ok(None)`), so the first-completing alternative's
result is the node's result; with no alternatives `join_next()` is
immediately `None` and the loop body never runs.  Any member of the list
can be the first completer, provided its own resolution completes. -/
inductive Resolves (pm : PatternTable) (env : SymbolEnv) : Rule → Option String → Prop where
  | blank : Resolves pm env .Blank (some "")
  | str (s : String) : Resolves pm env (.String s) (some s)
  | pattern (p : String) : Resolves pm env (.Pattern p) (lookupPattern pm p)
  | metadata {r v} : Resolves pm env r v → Resolves pm env (.Metadata r) v
  | repeated {r v} : Resolves pm env r v → Resolves pm env (.Repeat r) v
  | seqNil : Resolves pm env (.Seq []) (some "")
  | seqConsSome {r s rs t} : Resolves pm env r (some s) →
      Resolves pm env (.Seq rs) (some t) →
      Resolves pm env (.Seq (r :: rs)) (some (s ++ t))
  | seqConsNoneHead {r rs} : Resolves pm env r none →
      Resolves pm env (.Seq (r :: rs)) none
  | seqConsNoneTail {r s rs} : Resolves pm env r (some s) →
      Resolves pm env (.Seq rs) none →
      Resolves pm env (.Seq (r :: rs)) none
  | choiceEmpty : Resolves pm env (.Choice []) none
  | choicePick {rules r v} : r ∈ rules → Resolves pm env r v →
      Resolves pm env (.Choice rules) v
  | named {name v} : env name = some v → Resolves pm env (.NamedSymbol name) v
  | symbol (id : Nat) : Resolves pm env (.Symbol id) none

/-- The empty symbol environment: no cell committed yet. -/
def emptyEnv : SymbolEnv := fun _ => none

/-! ## Generic reachability over a step relation -/

/-- Reflexive-transitive closure of a step relation: the states an execution
can reach. -/
inductive Reach {σ : Type} (step : σ → σ → Prop) : σ → σ → Prop where
  | refl (s : σ) : Reach step s s
  | tail {s t u : σ} : Reach step s t → step t u → Reach step s u

/-! ## The `Eventually` cell (src/eventually.rs)

One reader task executing `Eventually::read` and one writer task executing
`Eventually::write(w)` against a single cell, with the `tokio` `RwLock`
modelled by a count of live read guards and a write-guard flag: `read().await`
on the lock succeeds only while no write guard is held, `write().await` on the
lock succeeds only while no guard of either kind is held.

The program counters follow the source lines exactly.  In `read`, the guard
`inner` is bound by `self.0.read().await` *before* the loop and stays live
across `inner.notify.notified().await` — so the model keeps `readGuards`
unchanged when the reader suspends.  `notify_waiters` wakes the tasks
currently suspended in `notified()`, which is modelled by the commit step
moving a suspended reader back to its check point. -/

/-- Program counter of the reader task in `Eventually::read`. -/
inductive ReadPC where
  | rStart : ReadPC
  | rCheck : ReadPC
  | rWaitNotify : ReadPC
  | rDone : Option String → ReadPC
deriving DecidableEq

/-- Program counter of the writer task in `Eventually::write`. -/
inductive WritePC where
  | wStart : WritePC
  | wHold : WritePC
  | wDone : WritePC
deriving DecidableEq

/-- Joint state of the cell (`Inner.option_value`), the `RwLock` guards, and
the two tasks.  The stored type is `T = Option String`, as instantiated by
the resolver (`Eventually<Option<String>>`). -/
structure CellSys where
  value : Option (Option String)
  readGuards : Nat
  writeGuard : Bool
  rpc : ReadPC
  wpc : WritePC
deriving DecidableEq

/-- Transitions of the reader/writer pair; `w` is the value passed to
`write`.

* `rAcquire`: `let inner = self.0.read().await` — granted while no write
  guard is held.
* `rCheckSome`: `if let Some(value) = inner.option_value.clone() { return value }`
  — the guard is dropped when `read` returns.
* `rCheckNone`: value absent, so the reader suspends in
  `inner.notify.notified().await`; the guard `inner` is still live, so
  `readGuards` does not change.
* `wAcquire`: `let mut inner = self.0.write().await` — granted only when no
  read guard and no write guard is held.
* `wCommit`: `inner.option_value = Some(value); inner.notify.notify_waiters()`
  and return, dropping the write guard; a reader suspended in `notified()`
  is woken and loops back to re-check the value. -/
inductive CellStep (w : Option String) : CellSys → CellSys → Prop where
  | rAcquire {s : CellSys} : s.rpc = .rStart → s.writeGuard = false →
      CellStep w s { s with rpc := .rCheck, readGuards := s.readGuards + 1 }
  | rCheckSome {s : CellSys} {v : Option String} : s.rpc = .rCheck →
      s.value = some v →
      CellStep w s { s with rpc := .rDone v, readGuards := s.readGuards - 1 }
  | rCheckNone {s : CellSys} : s.rpc = .rCheck → s.value = none →
      CellStep w s { s with rpc := .rWaitNotify }
  | wAcquire {s : CellSys} : s.wpc = .wStart → s.readGuards = 0 →
      s.writeGuard = false →
      CellStep w s { s with wpc := .wHold, writeGuard := true }
  | wCommit {s : CellSys} : s.wpc = .wHold →
      CellStep w s { s with
                     value := some w
                     wpc := .wDone
                     writeGuard := false
                     rpc := if s.rpc = .rWaitNotify then .rCheck else s.rpc }

/-- Fresh cell, reader about to call `read()`, writer about to call
`write(w)`. -/
def freshCellSys : CellSys :=
  { value := none, readGuards := 0, writeGuard := false,
    rpc := .rStart, wpc := .wStart }

/-- The configuration after the reader ran first on the fresh cell: it took
the read guard, saw no value, and suspended in `notified()` with the guard
still held; the writer has not started. -/
def pendingReadSys : CellSys :=
  { value := none, readGuards := 1, writeGuard := false,
    rpc := .rWaitNotify, wpc := .wStart }

/-- A cell whose value `v` was already committed (writer finished), with a
fresh reader about to call `read()`. -/
def committedCellSys (v : Option String) : CellSys :=
  { value := some v, readGuards := 0, writeGuard := false,
    rpc := .rStart, wpc := .wDone }

/-! ## The `main` join loop (src/main.rs:161-167)

After spawning the driver tasks, `main` runs
`loop { dbg!(join_set.join_next().await); }` and only after the loop would
`dbg!(symbol_resolutions)` run.  The loop body has no `break` or `return`:
with tasks pending, `join_next()` yields one; with the set drained it
returns `None` and the loop runs again. -/

/-- Position of `main`: inside the join loop, or at the (unreachable)
`dbg!(symbol_resolutions)` statement after it. -/
inductive MainPC where
  | looping : MainPC
  | afterLoop : MainPC
deriving DecidableEq

/-- State of `main`'s join loop: number of driver tasks not yet joined, and
the program counter. -/
structure MainSt where
  pending : Nat
  pc : MainPC
deriving DecidableEq

/-- One iteration of `loop { dbg!(join_set.join_next().await); }`: either a
task is joined, or the drained set yields `None` and the loop repeats.  No
transition leaves the loop. -/
inductive MainStep : MainSt → MainSt → Prop where
  | joinTask (n : Nat) : MainStep ⟨n + 1, .looping⟩ ⟨n, .looping⟩
  | joinEmpty : MainStep ⟨0, .looping⟩ ⟨0, .looping⟩

/-! ## The symbol table (`SymbolResolutions`, src/main.rs)

`symbol_resolutions : RwLock<HashMap<String, Eventually<Option<String>>>>`.
A cell is modelled by an identity (so that "the same cell" is expressible)
together with its committed content, `none` meaning not yet written.  The
map keeps at most one cell per name by construction (it is a function), as
a `HashMap` does.  Two operations mutate the table:

* the `NamedSymbol` arm's registration
  `symbol_resolution.entry(name.clone()).or_insert(Eventually::new())`
  (src/main.rs:88-93), and
* the driver commit `match sr.write().await.entry(var.name)` with its
  `Occupied`/`Vacant` arms (src/main.rs:148-157). -/

/-- An `Eventually<Option<String>>` cell in the table: its identity and its
committed content (`none` = unwritten). -/
structure Cell where
  id : Nat
  val : Option (Option String)
deriving DecidableEq

/-- The table plus a supply of fresh cell identities. -/
structure SymTab where
  tab : String → Option Cell
  fresh : Nat

/-- `symbol_resolution.entry(name).or_insert(Eventually::new())`: create a
fresh unwritten cell under `name` only if the name is absent. -/
def registerIfAbsent (st : SymTab) (name : String) : SymTab :=
  match st.tab name with
  | some _ => st
  | none =>
    { tab := fun n => if n = name then some ⟨st.fresh, none⟩ else st.tab n
      fresh := st.fresh + 1 }

/-- The driver commit for `var.name` (src/main.rs:148-157): on `Occupied`,
`entry.get_mut().write(resolution)` writes into the existing cell; on
`Vacant`, a fresh cell is created, written, and inserted. -/
def commitResult (st : SymTab) (name : String) (res : Option String) : SymTab :=
  match st.tab name with
  | some c =>
    { st with tab := fun n => if n = name then some ⟨c.id, some res⟩ else st.tab n }
  | none =>
    { tab := fun n => if n = name then some ⟨st.fresh, some res⟩ else st.tab n
      fresh := st.fresh + 1 }

/-- The two kinds of table mutation performed during a run. -/
inductive SymOp where
  | register : String → SymOp
  | commit : String → Option String → SymOp

/-- Apply one table mutation. -/
def applySymOp (st : SymTab) : SymOp → SymTab
  | .register name => registerIfAbsent st name
  | .commit name res => commitResult st name res

/-- Apply a whole interleaving of table mutations, oldest first. -/
def runSymOps (st : SymTab) (ops : List SymOp) : SymTab :=
  ops.foldl applySymOp st

/-- The table at run start: empty, first fresh identity 0. -/
def emptySymTab : SymTab := { tab := fun _ => none, fresh := 0 }

/-! ## Rule fragments -/

mutual

/-- The deterministic fragment of §8: rules built only from
`Blank`/`String`/`Pattern`/`Seq`/`Metadata`/`Repeat`. -/
def detFragment : Rule → Bool
  | .Blank => true
  | .String _ => true
  | .Pattern _ => true
  | .Metadata r => detFragment r
  | .Repeat r => detFragment r
  | .Seq rules => detFragmentList rules
  | .Choice _ => false
  | .NamedSymbol _ => false
  | .Symbol _ => false

/-- `detFragment` on every element of a list. -/
def detFragmentList : List Rule → Bool
  | [] => true
  | r :: rs => detFragment r && detFragmentList rs

end

mutual

/-- Rules containing no `NamedSymbol` variant (the fragment of claim C10). -/
def namedSymbolFree : Rule → Bool
  | .Blank => true
  | .String _ => true
  | .Pattern _ => true
  | .Metadata r => namedSymbolFree r
  | .Repeat r => namedSymbolFree r
  | .Seq rules => namedSymbolFreeList rules
  | .Choice rules => namedSymbolFreeList rules
  | .NamedSymbol _ => false
  | .Symbol _ => true

/-- `namedSymbolFree` on every element of a list. -/
def namedSymbolFreeList : List Rule → Bool
  | [] => true
  | r :: rs => namedSymbolFree r && namedSymbolFreeList rs

end

/-- Concatenation of the collected strings, as `strings.join("")` does for a
`Vec` of the elements' resolutions. -/
def concatAll (l : List String) : String := l.foldr (· ++ ·) ""

/-! ## Helper lemmas -/

/-- No transition is enabled in `pendingReadSys`: the reader is parked in
`notified()` and still holds the read guard, so the writer cannot take the
write lock, and nobody will ever call `notify_waiters`. -/
theorem pendingReadSys_stuck (w : Option String) (s : CellSys) :
    ¬ CellStep w pendingReadSys s := by
  intro h
  cases h with
  | rAcquire h1 h2 => simp [pendingReadSys] at h1
  | rCheckSome h1 h2 => simp [pendingReadSys] at h1
  | rCheckNone h1 h2 => simp [pendingReadSys] at h1
  | wAcquire h1 h2 h3 => simp [pendingReadSys] at h2
  | wCommit h1 => simp [pendingReadSys] at h1

/-- Everything reachable from the stuck pending-read configuration is that
configuration itself. -/
theorem reach_pendingReadSys_eq (w : Option String) (s : CellSys)
    (h : Reach (CellStep w) pendingReadSys s) : s = pendingReadSys := by
  induction h with
  | refl => rfl
  | tail hr hs ih => exact absurd (ih ▸ hs) (pendingReadSys_stuck w _)

/-- Invariant of a cell whose value was committed before the reader started:
the value stays committed, the writer stays finished, and the reader is
never suspended in `notified()`. -/
theorem committedCellSys_inv (v : Option String) (s : CellSys)
    (h : Reach (CellStep v) (committedCellSys v) s) :
    s.value = some v ∧ s.wpc = WritePC.wDone ∧ s.rpc ≠ ReadPC.rWaitNotify := by
  induction h with
  | refl => exact ⟨rfl, rfl, by simp [committedCellSys]⟩
  | tail hr hs ih =>
    cases hs with
    | rAcquire h1 h2 => exact ⟨ih.1, ih.2.1, by simp⟩
    | rCheckSome h1 h2 => exact ⟨ih.1, ih.2.1, by simp⟩
    | rCheckNone h1 h2 => exact absurd (ih.1.symm.trans h2) (by simp)
    | wAcquire h1 h2 h3 => exact absurd (ih.2.1.symm.trans h1) (by simp)
    | wCommit h1 => exact absurd (ih.2.1.symm.trans h1) (by simp)

/-- Every state reachable inside the `main` join loop is still inside the
loop. -/
theorem main_loop_inv (n : Nat) (s : MainSt)
    (h : Reach MainStep ⟨n, .looping⟩ s) : s.pc = MainPC.looping := by
  induction h with
  | refl => rfl
  | tail hr hs ih => cases hs with
    | joinTask m => rfl
    | joinEmpty => rfl

/-- Once a name holds a cell, any interleaving of registrations and commits
keeps a cell with the same identity under that name. -/
theorem runSymOps_keeps_cell (ops : List SymOp) :
    ∀ (st : SymTab) (name : String) (c : Cell), st.tab name = some c →
      ∃ w, (runSymOps st ops).tab name = some ⟨c.id, w⟩ := by
  induction ops with
  | nil => intro st name c h; exact ⟨c.val, h⟩
  | cons op ops ih =>
    intro st name c h
    have hrun : runSymOps st (op :: ops) = runSymOps (applySymOp st op) ops := rfl
    rw [hrun]
    cases op with
    | register n =>
      rcases htn : st.tab n with _ | c'
      · have hne : name ≠ n := by
          intro e; rw [e, htn] at h; cases h
        have hkeep : (applySymOp st (.register n)).tab name = some c := by
          simp [applySymOp, registerIfAbsent, htn, hne, h]
        exact ih _ name c hkeep
      · have heq : applySymOp st (.register n) = st := by
          simp [applySymOp, registerIfAbsent, htn]
        rw [heq]; exact ih st name c h
    | commit n res =>
      rcases htn : st.tab n with _ | c'
      · have hne : name ≠ n := by
          intro e; rw [e, htn] at h; cases h
        have hkeep : (applySymOp st (.commit n res)).tab name = some c := by
          simp [applySymOp, commitResult, htn, hne, h]
        exact ih _ name c hkeep
      · by_cases hne : name = n
        · subst hne
          have hc : c' = c := by rw [htn] at h; injection h
          subst hc
          have hkeep : (applySymOp st (.commit name res)).tab name
              = some ⟨c'.id, some res⟩ := by
            simp [applySymOp, commitResult, htn]
          exact ih _ name ⟨c'.id, some res⟩ hkeep
        · have hkeep : (applySymOp st (.commit n res)).tab name = some c := by
            simp [applySymOp, commitResult, htn, hne, h]
          exact ih _ name c hkeep

/-! ## Claim theorems -/

/-- Claim C1 (code bug): in the `Choice` arm, `while let Some(Ok(Some(s))) =
join_set.join_next().await` exits the loop as soon as the first-completing
alternative resolves to `None`, so `None` completions are not ignored.  At
the spec's own input `Choice([Pattern("missing"), String("ok")])` with a
pattern table lacking `"missing"`, the execution in which the `Pattern`
alternative completes first makes the whole `Choice` resolve to `None`,
even though the alternative `String("ok")` resolves to `Some("ok")`; the
empty `Choice` does resolve to `None` as claimed. -/
theorem choice_first_none_returns_none :
    Resolves [] emptyEnv (.Choice [.Pattern "missing", .String "ok"]) none
    ∧ Resolves [] emptyEnv (.String "ok") (some "ok")
    ∧ Resolves [] emptyEnv (.Choice []) none := by
  refine ⟨?_, Resolves.str "ok", Resolves.choiceEmpty⟩
  exact Resolves.choicePick (List.mem_cons_self _ _) (Resolves.pattern "missing")

/-- Claim C4: `Seq` short-circuits.  If the sequential loop reaches an
element that resolves to `None` (every earlier element having resolved to
`Some`), the whole `Seq` resolves to `None` for every choice of the
remaining elements — including remaining elements that could not resolve at
all, since they are never evaluated in the sequential path. -/
theorem seq_short_circuit (pm : PatternTable) (env : SymbolEnv)
    (pre : List Rule) (ss : List String) (r : Rule) (post : List Rule)
    (hpre : List.Forall₂ (fun q s => Resolves pm env q (some s)) pre ss)
    (hr : Resolves pm env r none) :
    Resolves pm env (.Seq (pre ++ r :: post)) none := by
  induction hpre with
  | nil => exact Resolves.seqConsNoneHead hr
  | cons hq hrest ih => exact Resolves.seqConsNoneTail hq ih

/-- Witness for C4 at a concrete input: the element after the `None`-resolving
`Pattern("missing")` is a `NamedSymbol` whose cell is unwritten, which on its
own could never complete — yet the `Seq` still resolves to `None`. -/
theorem seq_short_circuit_witness :
    Resolves [] emptyEnv
      (.Seq [.String "a", .Pattern "missing", .NamedSymbol "x"]) none :=
  seq_short_circuit [] emptyEnv [.String "a"] ["a"] (.Pattern "missing")
    [.NamedSymbol "x"]
    (List.Forall₂.cons (Resolves.str "a") List.Forall₂.nil)
    (Resolves.pattern "missing")

/-- Claim C5: when every element of a `Seq` resolves to `Some`, the `Seq`
resolves to `Some` of the concatenation of the elements' results in
declaration order (`strings.join("")`), and `Seq([])` resolves to
`Some("")`. -/
theorem seq_all_some_concat (pm : PatternTable) (env : SymbolEnv) :
    Resolves pm env (.Seq []) (some "")
    ∧ ∀ (rules : List Rule) (ss : List String),
        List.Forall₂ (fun q s => Resolves pm env q (some s)) rules ss →
        Resolves pm env (.Seq rules) (some (concatAll ss)) := by
  refine ⟨Resolves.seqNil, ?_⟩
  intro rules ss h
  induction h with
  | nil => exact Resolves.seqNil
  | cons hq hrest ih => exact Resolves.seqConsSome hq ih

/-- Witness for C5: the spec's concrete example — pattern table
`{"\d+": "0"}`, rule `Seq([String("v"), Pattern("\d+")])` resolves to
`Some("v0")`. -/
theorem seq_all_some_concat_witness :
    Resolves [("\\d+", "0")] emptyEnv
      (.Seq [.String "v", .Pattern "\\d+"]) (some "v0") := by
  have hp : Resolves [("\\d+", "0")] emptyEnv (.Pattern "\\d+") (some "0") :=
    Resolves.pattern "\\d+"
  have h := (seq_all_some_concat [("\\d+", "0")] emptyEnv).2
    [.String "v", .Pattern "\\d+"] ["v", "0"]
    (List.Forall₂.cons (Resolves.str "v")
      (List.Forall₂.cons hp List.Forall₂.nil))
  simpa [concatAll] using h

/-- Claim C7: unresolvable leaves yield `None` without a fatal path.
`Pattern(p)` resolves to the table's substitution exactly when `p` is
present and to `None` when absent (and to nothing else), and `Symbol(id)`
always resolves to `None` (and to nothing else); both are ordinary
`Option` results of the evaluator. -/
theorem leaf_unresolvable_none (pm : PatternTable) (env : SymbolEnv)
    (p : String) (id : Nat) :
    (∀ sub, lookupPattern pm p = some sub →
      Resolves pm env (.Pattern p) (some sub))
    ∧ (lookupPattern pm p = none → Resolves pm env (.Pattern p) none)
    ∧ Resolves pm env (.Symbol id) none
    ∧ (∀ v, Resolves pm env (.Pattern p) v → v = lookupPattern pm p)
    ∧ (∀ v, Resolves pm env (.Symbol id) v → v = none) := by
  refine ⟨?_, ?_, Resolves.symbol id, ?_, ?_⟩
  · intro sub h; exact h ▸ Resolves.pattern p
  · intro h; exact h ▸ Resolves.pattern p
  · intro v h; cases h; rfl
  · intro v h; cases h; rfl

/-- Witness for C7: a present pattern resolves to its substitution; the
spec's missing-pattern scenario (`Pattern("\d+")` with no table entry)
resolves to `None`; `Symbol(1)` resolves to `None`. -/
theorem leaf_unresolvable_none_witness :
    Resolves [("a", "b")] emptyEnv (.Pattern "a") (some "b")
    ∧ Resolves [] emptyEnv (.Pattern "\\d+") none
    ∧ Resolves [] emptyEnv (.Symbol 1) none :=
  ⟨(leaf_unresolvable_none [("a", "b")] emptyEnv "a" 1).1 "b" rfl,
   (leaf_unresolvable_none [] emptyEnv "\\d+" 1).2.1 rfl,
   (leaf_unresolvable_none [] emptyEnv "\\d+" 1).2.2.1⟩

/-- Claim C8: on the fragment built only from
`Blank`/`String`/`Pattern`/`Seq`/`Metadata`/`Repeat` (no
`NamedSymbol`/`Symbol`/`Choice`), resolution is deterministic: any two
completed runs on the same pattern table produce the same
`Option<String>`. -/
theorem det_fragment_deterministic (pm : PatternTable) (env : SymbolEnv)
    (r : Rule) (v₁ : Option String) (h₁ : Resolves pm env r v₁) :
    ∀ v₂, detFragment r = true → Resolves pm env r v₂ → v₁ = v₂ := by
  induction h₁ with
  | blank => intro v₂ _ h₂; cases h₂; rfl
  | str s => intro v₂ _ h₂; cases h₂; rfl
  | pattern p => intro v₂ _ h₂; cases h₂; rfl
  | metadata h ih => intro v₂ hd h₂
                     cases h₂ with
                     | metadata h' => exact ih _ hd h'
  | repeated h ih => intro v₂ hd h₂
                     cases h₂ with
                     | repeated h' => exact ih _ hd h'
  | seqNil => intro v₂ _ h₂; cases h₂; rfl
  | seqConsSome h hs ih ihs =>
    intro v₂ hd h₂
    simp [detFragment, detFragmentList] at hd
    cases h₂ with
    | seqConsSome h' hs' =>
      have e1 := ih _ hd.1 h'
      have e2 := ihs _ hd.2 hs'
      injection e1 with e1; injection e2 with e2
      rw [e1, e2]
    | seqConsNoneHead h' => have := ih _ hd.1 h'; simp at this
    | seqConsNoneTail h' hs' => have := ihs _ hd.2 hs'; simp at this
  | seqConsNoneHead h ih =>
    intro v₂ hd h₂
    simp [detFragment, detFragmentList] at hd
    cases h₂ with
    | seqConsSome h' hs' => have := ih _ hd.1 h'; simp at this
    | seqConsNoneHead h' => rfl
    | seqConsNoneTail h' hs' => rfl
  | seqConsNoneTail h hs ih ihs =>
    intro v₂ hd h₂
    simp [detFragment, detFragmentList] at hd
    cases h₂ with
    | seqConsSome h' hs' => have := ihs _ hd.2 hs'; simp at this
    | seqConsNoneHead h' => rfl
    | seqConsNoneTail h' hs' => rfl
  | choiceEmpty => intro v₂ hd; simp [detFragment] at hd
  | choicePick mem h ih => intro v₂ hd; simp [detFragment] at hd
  | named henv => intro v₂ hd; simp [detFragment] at hd
  | symbol id => intro v₂ hd; simp [detFragment] at hd

/-- Witness for C8 at a concrete input: two runs on
`Seq([String("a"), Blank])` with the empty pattern table agree. -/
theorem det_fragment_deterministic_witness :
    (some ("a" ++ ("" ++ "")) : Option String) = some ("a" ++ ("" ++ "")) :=
  det_fragment_deterministic [] emptyEnv (.Seq [.String "a", .Blank]) _
    (Resolves.seqConsSome (Resolves.str "a")
      (Resolves.seqConsSome Resolves.blank Resolves.seqNil))
    _ rfl
    (Resolves.seqConsSome (Resolves.str "a")
      (Resolves.seqConsSome Resolves.blank Resolves.seqNil))

/-- Claim C10: for every rule containing no `NamedSymbol`, `resolve_rule`
completes with some `Option<String>` result, for every pattern table and
symbol table: the recursion is structural on the tree, `Symbol` returns
`None` outright, and a `Choice` over such alternatives receives a completed
result.  (`NamedSymbol` is the only suspension point the fragment
excludes.) -/
theorem named_free_total : ∀ (pm : PatternTable) (env : SymbolEnv) (r : Rule),
    namedSymbolFree r = true → ∃ v, Resolves pm env r v
  | pm, env, .Blank, _ => ⟨some "", Resolves.blank⟩
  | pm, env, .String s, _ => ⟨some s, Resolves.str s⟩
  | pm, env, .Pattern p, _ => ⟨lookupPattern pm p, Resolves.pattern p⟩
  | pm, env, .Metadata r, h =>
    match named_free_total pm env r h with
    | ⟨v, hv⟩ => ⟨v, Resolves.metadata hv⟩
  | pm, env, .Repeat r, h =>
    match named_free_total pm env r h with
    | ⟨v, hv⟩ => ⟨v, Resolves.repeated hv⟩
  | pm, env, .Seq [], _ => ⟨some "", Resolves.seqNil⟩
  | pm, env, .Seq (q :: qs), h => by
    have h' : (namedSymbolFree q && namedSymbolFreeList qs) = true := h
    simp only [Bool.and_eq_true] at h'
    obtain ⟨v, hv⟩ := named_free_total pm env q h'.1
    obtain ⟨w, hw⟩ := named_free_total pm env (.Seq qs) h'.2
    cases v with
    | none => exact ⟨none, Resolves.seqConsNoneHead hv⟩
    | some s =>
      cases w with
      | none => exact ⟨none, Resolves.seqConsNoneTail hv hw⟩
      | some t => exact ⟨some (s ++ t), Resolves.seqConsSome hv hw⟩
  | pm, env, .Choice [], _ => ⟨none, Resolves.choiceEmpty⟩
  | pm, env, .Choice (q :: qs), h => by
    have h' : (namedSymbolFree q && namedSymbolFreeList qs) = true := h
    simp only [Bool.and_eq_true] at h'
    obtain ⟨v, hv⟩ := named_free_total pm env q h'.1
    exact ⟨v, Resolves.choicePick (List.mem_cons_self q qs) hv⟩
  | pm, env, .NamedSymbol n, h => Bool.noConfusion h
  | pm, env, .Symbol id, _ => ⟨none, Resolves.symbol id⟩

/-- Witness for C10: `Choice([Symbol(3), Blank])` with the empty pattern
table completes with some result. -/
theorem named_free_total_witness :
    ∃ v, Resolves [] emptyEnv (.Choice [.Symbol 3, .Blank]) v :=
  named_free_total [] emptyEnv (.Choice [.Symbol 3, .Blank]) rfl

/-- Claim C2 (code bug): `Eventually::read` does NOT release its lock before
suspending.  The guard `inner` from `self.0.read().await` is still live when
the reader parks in `inner.notify.notified().await`, so a pending reader
holds a read guard that blocks the writer's `self.0.write().await`.  The
pending-read configuration is reachable from a fresh cell (reader first),
and from it the read lock count is 1 and no continuation exists in which
the pending `read()` returns or `write(w)` completes — instead of every
pending `read()` returning `w` after `write(w)` as the claim states. -/
theorem pending_read_blocks_writer (w : Option String) :
    Reach (CellStep w) freshCellSys pendingReadSys
    ∧ pendingReadSys.readGuards = 1
    ∧ ∀ s, Reach (CellStep w) pendingReadSys s →
        (∀ v, s.rpc ≠ ReadPC.rDone v) ∧ s.wpc ≠ WritePC.wDone := by
  refine ⟨?_, rfl, ?_⟩
  · have s1 : CellStep w freshCellSys
        (⟨none, 1, false, .rCheck, .wStart⟩ : CellSys) :=
      CellStep.rAcquire rfl rfl
    have s2 : CellStep w (⟨none, 1, false, .rCheck, .wStart⟩ : CellSys)
        pendingReadSys :=
      CellStep.rCheckNone rfl rfl
    exact Reach.tail (Reach.tail (Reach.refl _) s1) s2
  · intro s hs
    have he := reach_pendingReadSys_eq w s hs
    subst he
    exact ⟨fun v => by simp [pendingReadSys], by simp [pendingReadSys]⟩

/-- Witness for C2: with `write(Some("42"))` pending, the suspended-reader
configuration itself has the read neither returned nor the write
committed. -/
theorem pending_read_blocks_writer_witness :
    pendingReadSys.rpc ≠ ReadPC.rDone (some "42")
    ∧ pendingReadSys.wpc ≠ WritePC.wDone :=
  ⟨((pending_read_blocks_writer (some "42")).2.2 pendingReadSys
      (Reach.refl _)).1 (some "42"),
   ((pending_read_blocks_writer (some "42")).2.2 pendingReadSys
      (Reach.refl _)).2⟩

/-- Claim C3 (code bug): after the driver tasks are spawned, `main` runs
`loop { dbg!(join_set.join_next().await); }` with no `break` or `return`,
so even once every launched task has completed and committed
(`pending = 0`, `join_next()` returning `None`), the loop keeps running:
every reachable state is still inside the loop (the
`dbg!(symbol_resolutions)` statement after it is unreachable, so the final
mapping never becomes readable) and a further loop iteration is always
enabled (the run never terminates). -/
theorem join_loop_never_exits (n : Nat) (s : MainSt)
    (h : Reach MainStep ⟨n, .looping⟩ s) :
    s.pc = MainPC.looping ∧ ∃ s', MainStep s s' := by
  have hpc := main_loop_inv n s h
  refine ⟨hpc, ?_⟩
  obtain ⟨m, pc⟩ := s
  cases pc with
  | looping =>
    cases m with
    | zero => exact ⟨⟨0, .looping⟩, MainStep.joinEmpty⟩
    | succ k => exact ⟨⟨k, .looping⟩, MainStep.joinTask k⟩
  | afterLoop => exact MainPC.noConfusion hpc

/-- Witness for C3: with all tasks joined, `main` is still inside the
loop. -/
theorem join_loop_never_exits_witness :
    (⟨0, MainPC.looping⟩ : MainSt).pc = MainPC.looping :=
  (join_loop_never_exits 0 ⟨0, .looping⟩ (Reach.refl _)).1

/-- Claim C9: if the cell registered under `name` already holds a committed
value `v : Option<String>` when `NamedSymbol(name)` is resolved, the
resolution returns exactly `v` (and nothing else), and the underlying
`read()` completes immediately: on a committed cell the reader reaches
`rDone v` and no reachable state has it suspended in `notified()`.  In
particular `v = none` — a committed "unresolvable" marker — is distinct
from an unwritten cell and resolves to `None` instead of blocking. -/
theorem named_symbol_committed_immediate (pm : PatternTable)
    (env : SymbolEnv) (name : String) (v : Option String)
    (h : env name = some v) :
    Resolves pm env (.NamedSymbol name) v
    ∧ (∀ u, Resolves pm env (.NamedSymbol name) u → u = v)
    ∧ Reach (CellStep v) (committedCellSys v)
        (⟨some v, 0, false, .rDone v, .wDone⟩ : CellSys)
    ∧ ∀ s, Reach (CellStep v) (committedCellSys v) s →
        s.rpc ≠ ReadPC.rWaitNotify := by
  refine ⟨Resolves.named h, ?_, ?_, ?_⟩
  · intro u hu
    cases hu with
    | named h' =>
      have e := h'.symm.trans h
      injection e
  · have s1 : CellStep v (committedCellSys v)
        (⟨some v, 1, false, .rCheck, .wDone⟩ : CellSys) :=
      CellStep.rAcquire rfl rfl
    have s2 : CellStep v (⟨some v, 1, false, .rCheck, .wDone⟩ : CellSys)
        (⟨some v, 0, false, .rDone v, .wDone⟩ : CellSys) :=
      CellStep.rCheckSome rfl rfl
    exact Reach.tail (Reach.tail (Reach.refl _) s1) s2
  · intro s hs
    exact (committedCellSys_inv v s hs).2.2

/-- Witness for C9: a committed `None` under name `"b"` makes
`NamedSymbol("b")` resolve to `None` (rather than block). -/
theorem named_symbol_committed_immediate_witness :
    Resolves [] (fun _ => some none) (.NamedSymbol "b") none :=
  (named_symbol_committed_immediate [] (fun _ => some none) "b" none rfl).1

/-- Claim C6: the symbol table keeps at most one cell per name (it is a map
by construction) and a cell is never replaced or removed: registration via
`entry(name).or_insert(Eventually::new())` is the identity when the name
already has a cell; the driver commit writes into the existing cell
(same identity) when one exists and creates a fresh written cell only when
none does; and across any interleaving of registrations and commits, a name
that holds a cell keeps a cell with that same identity forever. -/
theorem symbol_table_cell_stable (st : SymTab) (name : String) (c : Cell)
    (res : Option String) (ops : List SymOp) :
    (st.tab name = some c → registerIfAbsent st name = st)
    ∧ (st.tab name = some c →
        (commitResult st name res).tab name = some ⟨c.id, some res⟩)
    ∧ (st.tab name = none →
        (commitResult st name res).tab name = some ⟨st.fresh, some res⟩)
    ∧ (st.tab name = some c →
        ∃ w, (runSymOps st ops).tab name = some ⟨c.id, w⟩) := by
  refine ⟨?_, ?_, ?_, ?_⟩
  · intro h; simp [registerIfAbsent, h]
  · intro h; simp [commitResult, h]
  · intro h; simp [commitResult, h]
  · intro h; exact runSymOps_keeps_cell ops st name c h

/-- Witness for C6: registering `"a"` twice on the empty table equals
registering it once, and a commit after registration still leaves the cell
with identity 0 under `"a"`. -/
theorem symbol_table_cell_stable_witness :
    registerIfAbsent (registerIfAbsent emptySymTab "a") "a"
      = registerIfAbsent emptySymTab "a"
    ∧ ∃ w, (runSymOps (registerIfAbsent emptySymTab "a")
        [SymOp.commit "a" (some "x")]).tab "a" = some ⟨0, w⟩ :=
  ⟨(symbol_table_cell_stable (registerIfAbsent emptySymTab "a") "a"
      ⟨0, none⟩ none []).1 rfl,
   (symbol_table_cell_stable (registerIfAbsent emptySymTab "a") "a"
      ⟨0, none⟩ none [SymOp.commit "a" (some "x")]).2.2.2 rfl⟩
